import Mathlib

/-!
Verification of the Batch Submission Engine specification against the
TypeScript sources of the repository (server/services/google-forms.ts,
server/services/sheets-writer.ts, server/routes.ts, server/storage.ts).

Shallow embedding: pure functions are translated to Lean functions;
network and browser effects are abstracted as explicit oracle inputs;
JavaScript objects with string keys become ordered association lists
(insertion order preserved, as in JS); machine numbers that matter here
are small counters and indices, modelled as Nat.
-/

namespace Monopolyu

/-! ### Header normalizer (google-forms.ts lines 27-32, sheets-writer.ts lines 4-9)

`normalizeHeader(header) = header.toLowerCase().trim().replace(/[^a-z0-9]/g, "")`.

`lowerChar` embeds `String.prototype.toLowerCase` on code points (ASCII
letters A-Z map to a-z; all other code points are untouched, which agrees
with JS on every character the regex class `[a-z0-9]` can retain).
`isWsChar` embeds the whitespace set removed by `trim`; since `trim` is
followed by deletion of every character outside `[a-z0-9]`, the output of
the normalizer does not depend on the exact whitespace set. -/

/-- Lower-case one character: code points 65..90 shift by 32, others unchanged. -/
def lowerChar (c : Char) : Char :=
  if 65 ≤ c.toNat && c.toNat ≤ 90 then Char.ofNat (c.toNat + 32) else c

/-- Membership in the regex class `[a-z0-9]`. -/
def isLowerAlnum (c : Char) : Bool :=
  (97 ≤ c.toNat && c.toNat ≤ 122) || (48 ≤ c.toNat && c.toNat ≤ 57)

/-- Whitespace characters removed by `trim` (space, tab, LF, CR). -/
def isWsChar (c : Char) : Bool :=
  c.toNat = 32 || c.toNat = 9 || c.toNat = 10 || c.toNat = 13

/-- `trim`: drop whitespace from both ends of a character list. -/
def trimList (l : List Char) : List Char :=
  ((l.dropWhile isWsChar).reverse.dropWhile isWsChar).reverse

/-- google-forms.ts lines 27-32: `header.toLowerCase().trim().replace(/[^a-z0-9]/g, "")`. -/
def normalizeHeader (s : String) : String :=
  ⟨(trimList (s.data.map lowerChar)).filter isLowerAlnum⟩

lemma isWsChar_of_isLowerAlnum {c : Char} (h : isLowerAlnum c = true) :
    isWsChar c = false := by
  simp only [isLowerAlnum, Bool.or_eq_true, Bool.and_eq_true, decide_eq_true_eq] at h
  simp only [isWsChar, Bool.or_eq_false_iff, decide_eq_false_iff_not]
  omega

lemma lowerChar_of_isLowerAlnum {c : Char} (h : isLowerAlnum c = true) :
    lowerChar c = c := by
  simp only [isLowerAlnum, Bool.or_eq_true, Bool.and_eq_true, decide_eq_true_eq] at h
  simp only [lowerChar, Bool.and_eq_true, decide_eq_true_eq, ite_eq_right_iff]
  omega

lemma isLowerAlnum_lowerChar {c : Char} (h : isLowerAlnum c = true) :
    isLowerAlnum (lowerChar c) = true := by
  rw [lowerChar_of_isLowerAlnum h]; exact h

lemma filter_dropWhile_ws (l : List Char) :
    (l.dropWhile isWsChar).filter isLowerAlnum = l.filter isLowerAlnum := by
  induction l with
  | nil => rfl
  | cons c rest ih =>
    by_cases hw : isWsChar c = true
    · have halnum : isLowerAlnum c = false := by
        by_contra hc
        rw [Bool.not_eq_false] at hc
        rw [isWsChar_of_isLowerAlnum hc] at hw
        exact Bool.false_ne_true hw
      rw [List.dropWhile_cons_of_pos hw, List.filter_cons_of_neg (by simp [halnum]), ih]
    · rw [List.dropWhile_cons_of_neg hw]

lemma filter_trimList (l : List Char) :
    (trimList l).filter isLowerAlnum = l.filter isLowerAlnum := by
  unfold trimList
  rw [List.filter_reverse, filter_dropWhile_ws, List.filter_reverse,
    List.reverse_reverse, filter_dropWhile_ws]

/-- The trim step never changes the normalizer's output. -/
lemma normalizeHeader_eq_core (s : String) :
    normalizeHeader s = ⟨(s.data.map lowerChar).filter isLowerAlnum⟩ := by
  unfold normalizeHeader
  rw [filter_trimList]

lemma mem_normalizeHeader_isLowerAlnum {s : String} {c : Char}
    (h : c ∈ (normalizeHeader s).data) : isLowerAlnum c = true := by
  rw [normalizeHeader_eq_core] at h
  exact List.of_mem_filter h

lemma list_map_id_of {α : Type} (f : α → α) :
    ∀ l : List α, (∀ a ∈ l, f a = a) → l.map f = l
  | [], _ => rfl
  | a :: l, h => by
    rw [List.map_cons, h a (List.mem_cons_self a l),
      list_map_id_of f l (fun b hb => h b (List.mem_cons_of_mem a hb))]

/-- C10: the header normalizer is idempotent; any two strings whose
characters agree after lower-casing and deleting everything outside
`[a-z0-9]` normalize to the same key (case/punctuation-insensitivity);
and concretely `normalize("Mobile-No.") = normalize("mobile no")`. -/
theorem normalizeHeader_props :
    (∀ x : String, normalizeHeader (normalizeHeader x) = normalizeHeader x) ∧
    (∀ x y : String,
      (x.data.map lowerChar).filter isLowerAlnum =
        (y.data.map lowerChar).filter isLowerAlnum →
      normalizeHeader x = normalizeHeader y) ∧
    normalizeHeader ("Mobile-No.") = normalizeHeader ("mobile no") := by
  refine ⟨?_, ?_, by decide⟩
  · intro x
    rw [normalizeHeader_eq_core (normalizeHeader x)]
    have hmap : (normalizeHeader x).data.map lowerChar = (normalizeHeader x).data :=
      list_map_id_of lowerChar _
        (fun c hc => lowerChar_of_isLowerAlnum (mem_normalizeHeader_isLowerAlnum hc))
    rw [hmap]
    have hfilter : (normalizeHeader x).data.filter isLowerAlnum = (normalizeHeader x).data := by
      rw [List.filter_eq_self]
      intro c hc
      exact mem_normalizeHeader_isLowerAlnum hc
    rw [hfilter]
  · intro x y h
    rw [normalizeHeader_eq_core, normalizeHeader_eq_core, h]

/-- C10 witness: the theorem applied at concrete inputs. -/
theorem normalizeHeader_props_witness :
    normalizeHeader (normalizeHeader ("Mobile-No.")) = normalizeHeader ("Mobile-No.") ∧
    normalizeHeader ("ABC") = normalizeHeader (" a-b-c! ") := by
  exact ⟨normalizeHeader_props.1 _, normalizeHeader_props.2.1 _ _ (by decide)⟩

/-! ### JS objects as ordered association lists

`Record<string, T>` values keyed by strings are modelled as lists of
key/value pairs in insertion order.  `setKey` is property assignment
(`obj[k] = v`): it replaces the value in place when the key exists and
appends otherwise.  `getKey` is property read; `hasKey` is JS truthiness
of `obj[k]` (the stored values here are objects/non-empty, so presence
alone decides truthiness). -/

def setKey {α : Type} : List (String × α) → String → α → List (String × α)
  | [], k, v => [(k, v)]
  | p :: rest, k, v => if p.1 == k then (k, v) :: rest else p :: setKey rest k v

def getKey {α : Type} : List (String × α) → String → Option α
  | [], _ => none
  | p :: rest, k => if p.1 == k then some p.2 else getKey rest k

def hasKey {α : Type} (m : List (String × α)) (k : String) : Bool :=
  (getKey m k).isSome

lemma getKey_setKey {α : Type} (m : List (String × α)) (k : String) (v : α) (c : String) :
    getKey (setKey m k v) c = if c = k then some v else getKey m c := by
  induction m with
  | nil =>
    by_cases h : c = k
    · simp [setKey, getKey, h]
    · simp [setKey, getKey, h, Ne.symm h]
  | cons q rest ih =>
    by_cases hqk : q.1 = k
    · rw [setKey, if_pos (by simp [hqk])]
      by_cases h : c = k
      · subst h; simp [getKey]
      · have hqc : ¬ q.1 = c := by rw [hqk]; exact Ne.symm h
        simp [getKey, Ne.symm h, hqc, h]
    · rw [setKey, if_neg (by simp [hqk])]
      by_cases hqc : q.1 = c
      · have hck : ¬ c = k := fun e => hqk (by rw [hqc, e])
        simp [getKey, hqc, hck]
      · simp [getKey, hqc, ih]

lemma mem_setKey {α : Type} {m : List (String × α)} {k : String} {v : α}
    {p : String × α} (h : p ∈ setKey m k v) : p = (k, v) ∨ p ∈ m := by
  induction m with
  | nil => simpa [setKey] using h
  | cons q rest ih =>
    by_cases hqk : q.1 = k
    · rw [setKey, if_pos (by simp [hqk])] at h
      rcases List.mem_cons.mp h with h | h
      · exact Or.inl h
      · exact Or.inr (List.mem_cons_of_mem q h)
    · rw [setKey, if_neg (by simp [hqk])] at h
      rcases List.mem_cons.mp h with h | h
      · exact Or.inr (h ▸ List.mem_cons_self q rest)
      · rcases ih h with h2 | h2
        · exact Or.inl h2
        · exact Or.inr (List.mem_cons_of_mem q h2)

/-! ### Form fields and the column-to-field auto-mapping
(google-forms.ts lines 4-10 and 340-379)

`submitToForm` builds `fieldMapping : Record<string, FormField>` from the
spreadsheet column names and the resolved form fields in two passes:
an exact pass on normalized titles (lines 346-359) and a partial
(substring) pass over the still-unmapped columns (lines 361-379). -/

structure FormField where
  title : String
  type : String
  id : String
  required : Bool
  entryId : String
deriving DecidableEq

/-- Does the character list start with the given needle? -/
def hasPrefixSeq : List Char → List Char → Bool
  | _, [] => true
  | [], _ :: _ => false
  | c :: hay, d :: needle => c == d && hasPrefixSeq hay needle

/-- Does the character list contain the needle as a contiguous run? -/
def hasInfixSeq : List Char → List Char → Bool
  | [], needle => hasPrefixSeq [] needle
  | c :: hay, needle => hasPrefixSeq (c :: hay) needle || hasInfixSeq hay needle

/-- JS `a.includes(b)`: `b` occurs as a contiguous substring of `a`. -/
def strIncludes (a b : String) : Bool :=
  hasInfixSeq a.data b.data

/-- google-forms.ts lines 346-359: for each column, claim the first field
whose normalized title equals the normalized column (no check that the
field is already claimed by an earlier column). -/
def exactTier (fields : List FormField) :
    List String → List (String × FormField) → List (String × FormField)
  | [], m => m
  | column :: rest, m =>
    match fields.find? (fun field =>
        normalizeHeader field.title == normalizeHeader column) with
    | some field => exactTier fields rest (setKey m column field)
    | none => exactTier fields rest m

/-- google-forms.ts lines 361-379: for each still-unmapped column, claim
the first not-yet-claimed field whose normalized title contains the
normalized column or vice versa. -/
def partialTier (fields : List FormField) :
    List String → List (String × FormField) → List (String × FormField)
  | [], m => m
  | column :: rest, m =>
    match fields.find? (fun field =>
        !(m.any (fun p => p.2.id == field.id)) &&
        (strIncludes (normalizeHeader field.title) (normalizeHeader column) ||
         strIncludes (normalizeHeader column) (normalizeHeader field.title))) with
    | some field => partialTier fields rest (setKey m column field)
    | none => partialTier fields rest m

/-- google-forms.ts lines 340-379: the full auto-mapping (exact pass, then
the partial pass over columns the exact pass left unmapped). -/
def buildFieldMapping (columns : List String) (fields : List FormField) :
    List (String × FormField) :=
  let m1 := exactTier fields columns []
  let unmappedColumns := columns.filter (fun col => !(hasKey m1 col))
  partialTier fields unmappedColumns m1

/-- No two entries of the mapping with different column keys share a field id. -/
def IdInj (m : List (String × FormField)) : Prop :=
  ∀ p1 ∈ m, ∀ p2 ∈ m, p1.1 ≠ p2.1 → p1.2.id ≠ p2.2.id

lemma getKey_mem {α : Type} {m : List (String × α)} {k : String} {v : α}
    (h : getKey m k = some v) : (k, v) ∈ m := by
  induction m with
  | nil => simp [getKey] at h
  | cons q rest ih =>
    by_cases hq : q.1 = k
    · rw [getKey, if_pos (by simp [hq])] at h
      cases q with
      | mk qk qv =>
        cases h
        simp only at hq
        rw [hq]
        exact List.mem_cons_self _ _
    · rw [getKey, if_neg (by simp [hq])] at h
      exact List.mem_cons_of_mem q (ih h)

lemma idInj_setKey {m : List (String × FormField)} {k : String} {v : FormField}
    (hm : IdInj m) (hv : ∀ p ∈ m, p.2.id ≠ v.id) : IdInj (setKey m k v) := by
  intro p1 h1 p2 h2 hne
  rcases mem_setKey h1 with e1 | m1 <;> rcases mem_setKey h2 with e2 | m2
  · exact absurd (by rw [e1, e2]) hne
  · rw [e1]
    exact fun e => hv p2 m2 e.symm
  · rw [e2]
    exact hv p1 m1
  · exact hm p1 m1 p2 m2 hne

lemma exactTier_mem (fields : List FormField) :
    ∀ (cols : List String) (m : List (String × FormField)) (p : String × FormField),
      p ∈ exactTier fields cols m →
      p ∈ m ∨ (p.1 ∈ cols ∧ fields.find? (fun field =>
        normalizeHeader field.title == normalizeHeader p.1) = some p.2)
  | [], _, p, h => Or.inl h
  | column :: rest, m, p, h => by
    simp only [exactTier] at h
    cases hf : fields.find? (fun field =>
        normalizeHeader field.title == normalizeHeader column) with
    | some field =>
      rw [hf] at h
      rcases exactTier_mem fields rest _ p h with h2 | ⟨h2a, h2b⟩
      · rcases mem_setKey h2 with h3 | h3
        · refine Or.inr ⟨?_, ?_⟩
          · rw [h3]; exact List.mem_cons_self _ _
          · rw [h3]; exact hf
        · exact Or.inl h3
      · exact Or.inr ⟨List.mem_cons_of_mem _ h2a, h2b⟩
    | none =>
      rw [hf] at h
      rcases exactTier_mem fields rest _ p h with h2 | ⟨h2a, h2b⟩
      · exact Or.inl h2
      · exact Or.inr ⟨List.mem_cons_of_mem _ h2a, h2b⟩

lemma exactTier_idInj (columns : List String) (fields : List FormField)
    (hcols : (columns.map normalizeHeader).Nodup)
    (hfields : (fields.map FormField.id).Nodup) :
    IdInj (exactTier fields columns []) := by
  intro p1 h1 p2 h2 hne
  rcases exactTier_mem fields columns [] p1 h1 with h | ⟨hc1, hw1⟩
  · exact absurd h (List.not_mem_nil p1)
  rcases exactTier_mem fields columns [] p2 h2 with h | ⟨hc2, hw2⟩
  · exact absurd h (List.not_mem_nil p2)
  have ht1 : normalizeHeader p1.2.title = normalizeHeader p1.1 :=
    by simpa using List.find?_some hw1
  have ht2 : normalizeHeader p2.2.title = normalizeHeader p2.1 :=
    by simpa using List.find?_some hw2
  have hm1 : p1.2 ∈ fields := List.mem_of_find?_eq_some hw1
  have hm2 : p2.2 ∈ fields := List.mem_of_find?_eq_some hw2
  have hnorm : normalizeHeader p1.1 ≠ normalizeHeader p2.1 :=
    fun e => hne (List.inj_on_of_nodup_map hcols hc1 hc2 e)
  have hfne : p1.2 ≠ p2.2 := by
    intro e
    exact hnorm (by rw [← ht1, ← ht2, e])
  exact fun eid => hfne (List.inj_on_of_nodup_map hfields hm1 hm2 eid)

lemma partialTier_idInj (fields : List FormField) :
    ∀ (cols : List String) (m : List (String × FormField)),
      IdInj m → IdInj (partialTier fields cols m)
  | [], _, hm => hm
  | column :: rest, m, hm => by
    simp only [partialTier]
    cases hf : fields.find? (fun field =>
        !(m.any (fun p => p.2.id == field.id)) &&
        (strIncludes (normalizeHeader field.title) (normalizeHeader column) ||
         strIncludes (normalizeHeader column) (normalizeHeader field.title))) with
    | some field =>
      apply partialTier_idInj fields rest
      apply idInj_setKey hm
      have hp := List.find?_some hf
      rw [Bool.and_eq_true] at hp
      have hany : m.any (fun p => p.2.id == field.id) = false := by
        rcases hp with ⟨hp1, _⟩
        cases hx : m.any (fun p => p.2.id == field.id)
        · rfl
        · rw [hx] at hp1; exact absurd hp1 (by decide)
      intro p hpm
      have := List.any_eq_false.mp hany p hpm
      simpa using this
    | none =>
      exact partialTier_idInj fields rest m hm

lemma buildFieldMapping_idInj (columns : List String) (fields : List FormField)
    (hcols : (columns.map normalizeHeader).Nodup)
    (hfields : (fields.map FormField.id).Nodup) :
    IdInj (buildFieldMapping columns fields) :=
  partialTier_idInj fields _ _ (exactTier_idInj columns fields hcols hfields)

/-- C1 counterexample: the exact tier never checks whether a field is
already claimed, so the two distinct columns "Name" and "Name " (equal
after normalization) are both mapped to the single field "Name", whose
fieldId "entry.100" is therefore claimed by two columns. -/
theorem exactTier_duplicate_claim :
    ¬ (∀ (c1 c2 : String) (f1 f2 : FormField),
      getKey (buildFieldMapping [("Name"), ("Name ")]
        [⟨"Name", "text", "entry.100", false, "entry.100"⟩]) c1 = some f1 →
      getKey (buildFieldMapping [("Name"), ("Name ")]
        [⟨"Name", "text", "entry.100", false, "entry.100"⟩]) c2 = some f2 →
      c1 ≠ c2 → f1.id ≠ f2.id) := by
  intro h
  exact h ("Name") ("Name ")
    ⟨"Name", "text", "entry.100", false, "entry.100"⟩
    ⟨"Name", "text", "entry.100", false, "entry.100"⟩
    (by decide) (by decide) (by decide) rfl

/-- C1 (amended): the substring tier never claims an already-claimed
fieldId, and the whole mapping assigns each fieldId to at most one
column provided the column names have pairwise distinct normalizations
and the resolved fields carry pairwise distinct ids; without the first
proviso the exact tier can map two columns to the same fieldId. -/
theorem buildFieldMapping_injective_ids (columns : List String) (fields : List FormField)
    (hcols : (columns.map normalizeHeader).Nodup)
    (hfields : (fields.map FormField.id).Nodup) :
    ∀ (c1 c2 : String) (f1 f2 : FormField),
      getKey (buildFieldMapping columns fields) c1 = some f1 →
      getKey (buildFieldMapping columns fields) c2 = some f2 →
      c1 ≠ c2 → f1.id ≠ f2.id := by
  intro c1 c2 f1 f2 h1 h2 hne
  exact buildFieldMapping_idInj columns fields hcols hfields
    (c1, f1) (getKey_mem h1) (c2, f2) (getKey_mem h2) hne

/-- C1 witness: two distinct columns with distinct normalizations map to
fields with distinct ids. -/
theorem buildFieldMapping_injective_ids_witness : ("entry.1" : String) ≠ "entry.2" :=
  buildFieldMapping_injective_ids [("Name"), ("Phone")]
    [⟨"Name", "text", "entry.1", false, "entry.1"⟩,
     ⟨"Phone", "text", "entry.2", false, "entry.2"⟩]
    (by decide) (by decide) ("Name") ("Phone")
    ⟨"Name", "text", "entry.1", false, "entry.1"⟩
    ⟨"Phone", "text", "entry.2", false, "entry.2"⟩
    (by decide) (by decide) (by decide)

lemma exactTier_getKey_none (fields : List FormField) (column : String)
    (hfind : fields.find? (fun field =>
      normalizeHeader field.title == normalizeHeader column) = none) :
    ∀ (cols : List String) (m : List (String × FormField)),
      getKey m column = none → getKey (exactTier fields cols m) column = none
  | [], _, hm => hm
  | col :: rest, m, hm => by
    simp only [exactTier]
    cases hf : fields.find? (fun field =>
        normalizeHeader field.title == normalizeHeader col) with
    | some field =>
      apply exactTier_getKey_none fields column hfind rest
      have hcc : column ≠ col := by
        intro e
        rw [← e, hfind] at hf
        cases hf
      rw [getKey_setKey, if_neg hcc]
      exact hm
    | none => exact exactTier_getKey_none fields column hfind rest m hm

lemma partialTier_getKey_none (fields : List FormField) (column : String)
    (hno : ∀ f ∈ fields,
      (strIncludes (normalizeHeader f.title) (normalizeHeader column) ||
       strIncludes (normalizeHeader column) (normalizeHeader f.title)) = false) :
    ∀ (cols : List String) (m : List (String × FormField)),
      getKey m column = none → getKey (partialTier fields cols m) column = none
  | [], _, hm => hm
  | col :: rest, m, hm => by
    simp only [partialTier]
    cases hf : fields.find? (fun field =>
        !(m.any (fun p => p.2.id == field.id)) &&
        (strIncludes (normalizeHeader field.title) (normalizeHeader col) ||
         strIncludes (normalizeHeader col) (normalizeHeader field.title))) with
    | some field =>
      apply partialTier_getKey_none fields column hno rest
      by_cases hcc : column = col
      · exfalso
        have hp := List.find?_some hf
        rw [Bool.and_eq_true] at hp
        have hmem := List.mem_of_find?_eq_some hf
        rw [← hcc] at hp
        rw [hno field hmem] at hp
        exact absurd hp.2 (by decide)
      · rw [getKey_setKey, if_neg hcc]
        exact hm
    | none => exact partialTier_getKey_none fields column hno rest m hm

/-- C4 counterexample: column "X" against the single (unclaimed) field
"Y".  The claimed positional tier would pair them, but the mapping built
by google-forms.ts lines 344-379 is empty: the code has only the exact
and substring passes and no positional pass at all. -/
theorem no_positional_pairing_example :
    buildFieldMapping [("X")] [⟨"Y", "text", "entry.9", false, "entry.9"⟩] = [] ∧
    getKey (buildFieldMapping [("X")]
      [⟨"Y", "text", "entry.9", false, "entry.9"⟩]) ("X") = none := by
  decide

/-- C4 (amended): after the exact and substring tiers have run, remaining
unmapped columns stay unmapped — the mapping algorithm has no positional
tier.  A column whose normalized form neither equals nor contains (nor is
contained in) any field's normalized title is absent from the final
mapping, even when unclaimed fields remain. -/
theorem buildFieldMapping_no_positional (columns : List String) (fields : List FormField)
    (column : String)
    (hexact : ∀ f ∈ fields,
      (normalizeHeader f.title == normalizeHeader column) = false)
    (hsub : ∀ f ∈ fields,
      (strIncludes (normalizeHeader f.title) (normalizeHeader column) ||
       strIncludes (normalizeHeader column) (normalizeHeader f.title)) = false) :
    getKey (buildFieldMapping columns fields) column = none := by
  have hfind : fields.find? (fun field =>
      normalizeHeader field.title == normalizeHeader column) = none := by
    rw [List.find?_eq_none]
    intro f hf
    rw [hexact f hf]
    decide
  simp only [buildFieldMapping]
  apply partialTier_getKey_none fields column hsub
  apply exactTier_getKey_none fields column hfind
  rfl

/-- C4 witness: the amended theorem applied at a concrete input. -/
theorem buildFieldMapping_no_positional_witness :
    getKey (buildFieldMapping [("Zip")]
      [⟨"Country", "text", "entry.7", false, "entry.7"⟩]) ("Zip") = none :=
  buildFieldMapping_no_positional [("Zip")]
    [⟨"Country", "text", "entry.7", false, "entry.7"⟩] ("Zip")
    (by decide) (by decide)

/-! ### Field resolution (google-forms.ts `validateForm`, lines 34-325)

Network and browser effects are abstracted: the structured strategy's
result is the ordered map `apiFields` (keyed by lower-cased trimmed
question title, as built on lines 65-75), the structural scan's result is
`htmlFields` (lines 141-264), and `Math.random().toString().slice(2, 11)`
on line 279 is abstracted as the digit-string generator `gen`.  What is
embedded is the fallback and merge logic of lines 271-317. -/

structure HtmlField where
  entryId : String
  label : String
  type : String
deriving DecidableEq

structure ApiField where
  title : String
  type : String
  required : Bool
deriving DecidableEq

/-- JS `a || b` on strings: the empty string is falsy. -/
def jsOrStr (a b : String) : String :=
  if a = "" then b else a

/-- google-forms.ts lines 271-288: when the HTML scan found nothing, fall
back to the API fields, synthesizing one placeholder entry id per API
field; with no API fields either, keep the empty list. -/
def resolveHtmlFields (apiFields : List (String × ApiField)) (htmlFields : List HtmlField)
    (gen : Nat → String) : List HtmlField :=
  if htmlFields.length = 0 then
    if apiFields.length > 0 then
      apiFields.enum.map (fun p => ⟨"entry." ++ gen p.1, p.2.1, "text"⟩)
    else htmlFields
  else htmlFields

/-- google-forms.ts lines 291-310: merge API metadata into each HTML
field by normalized-label match. -/
def mergeFields (apiFields : List (String × ApiField)) (htmlFields : List HtmlField) :
    List FormField :=
  htmlFields.map (fun h =>
    let apiField := (apiFields.find? (fun p =>
      normalizeHeader p.1 == normalizeHeader h.label)).map (fun p => p.2)
    { id := h.entryId
      title := match apiField with | some a => jsOrStr a.title h.label | none => h.label
      type := match apiField with | some a => jsOrStr a.type h.type | none => h.type
      required := match apiField with | some a => a.required | none => false
      entryId := h.entryId })

/-- google-forms.ts lines 271-317: the field catalog produced by
`validateForm` (this code path raises no error: the `Except` codomain
records that resolution here cannot fail). -/
def resolveFields (apiFields : List (String × ApiField)) (htmlFields : List HtmlField)
    (gen : Nat → String) : Except String (List FormField) :=
  .ok (mergeFields apiFields (resolveHtmlFields apiFields htmlFields gen))

lemma mem_enumFrom_bound {α : Type} :
    ∀ (l : List α) (n : Nat) (p : Nat × α),
      p ∈ l.enumFrom n → n ≤ p.1 ∧ p.1 < n + l.length
  | [], _, p, h => absurd h (List.not_mem_nil p)
  | a :: l, n, p, h => by
    rw [List.enumFrom] at h
    rcases List.mem_cons.mp h with h | h
    · rw [h]
      constructor
      · exact Nat.le_refl n
      · simp [Nat.lt_succ_iff, Nat.le_add_right]
    · have := mem_enumFrom_bound l (n + 1) p h
      constructor
      · omega
      · simp only [List.length_cons]
        omega

lemma length_enumFrom {α : Type} :
    ∀ (l : List α) (n : Nat), (l.enumFrom n).length = l.length
  | [], _ => rfl
  | _ :: l, n => by
    rw [List.enumFrom, List.length_cons, List.length_cons, length_enumFrom l (n + 1)]

/-- C2 counterexample: with zero fields discovered by the structural HTML
scan, resolution does NOT fail.  With one API field it returns a
descriptor whose fieldId is a synthesized placeholder ("entry." plus
random digits, here abstracted as "123456789") that was never discovered
on the form; with no API fields either it returns an empty catalog.
Neither case raises a NoFieldsDiscovered error. -/
theorem resolveFields_synthesizes_placeholders :
    resolveFields [(("name"), ⟨"Name", "textQuestion", true⟩)] [] (fun _ => ("123456789"))
      = .ok [⟨"Name", "textQuestion", "entry.123456789", true, "entry.123456789"⟩] ∧
    resolveFields [] [] (fun _ => ("123456789")) = .ok [] :=
  ⟨rfl, rfl⟩

/-- C2 (amended): when the structural HTML scan discovers zero fields,
resolution does not fail with NoFieldsDiscovered: it always returns a
catalog, with one descriptor per API field, each carrying a synthesized
placeholder fieldId of the form "entry." ++ digits (the empty catalog
when the API also yielded nothing), and the caller proceeds with it. -/
theorem resolveFields_never_fails (apiFields : List (String × ApiField))
    (htmlFields : List HtmlField) (gen : Nat → String) :
    ∃ fs, resolveFields apiFields htmlFields gen = .ok fs ∧
      (htmlFields = [] → fs.length = apiFields.length ∧
        ∀ f ∈ fs, ∃ i, i < apiFields.length ∧ f.entryId = "entry." ++ gen i) := by
  refine ⟨_, rfl, ?_⟩
  intro hh
  subst hh
  by_cases hapi : apiFields.length > 0
  · have e1 : resolveHtmlFields apiFields [] gen
        = apiFields.enum.map
            (fun p => (⟨"entry." ++ gen p.1, p.2.1, "text"⟩ : HtmlField)) := by
      unfold resolveHtmlFields
      rw [if_pos (show ([] : List HtmlField).length = 0 from rfl), if_pos hapi]
    constructor
    · rw [e1]
      simp only [mergeFields, List.length_map]
      exact length_enumFrom apiFields 0
    · intro f hf
      rw [e1] at hf
      simp only [mergeFields, List.map_map, List.mem_map] at hf
      obtain ⟨p, hp, hfh⟩ := hf
      refine ⟨p.1, ?_, ?_⟩
      · rw [List.enum] at hp
        have := (mem_enumFrom_bound apiFields 0 p hp).2
        omega
      · rw [← hfh]
        rfl
  · have hzero : apiFields = [] := List.length_eq_zero.mp (Nat.eq_zero_of_not_pos hapi)
    subst hzero
    exact ⟨rfl, fun f hf => absurd hf (List.not_mem_nil f)⟩

/-- C2 witness: the amended theorem applied at a concrete input. -/
theorem resolveFields_never_fails_witness :
    ∃ fs, resolveFields [(("name"), ⟨"Name", "textQuestion", true⟩)] []
        (fun _ => ("123456789")) = .ok fs ∧
      (([] : List HtmlField) = [] → fs.length = 1 ∧
        ∀ f ∈ fs, ∃ i, i < 1 ∧ f.entryId = "entry." ++ "123456789") :=
  resolveFields_never_fails [(("name"), ⟨"Name", "textQuestion", true⟩)] []
    (fun _ => ("123456789"))

/-! ### Direct-strategy submission of one record set
(google-forms.ts `submitToForm`, lines 402-503)

Spreadsheet cell values (`Record<string, any>`) are embedded as
`CellValue` (null, undefined, string, number); `String(value)` is
`CellValue.toStr` and `value !== null && value !== undefined &&
value !== ''` is `CellValue.isPresent`.  The `fetch` of each record's
POST is abstracted as the oracle `resp : Nat → FetchResult` giving each
row index its network outcome. -/

inductive CellValue where
  | null
  | undef
  | str (s : String)
  | num (n : Int)
deriving DecidableEq

/-- JS `String(value)`. -/
def CellValue.toStr : CellValue → String
  | .null => "null"
  | .undef => "undefined"
  | .str s => s
  | .num n => toString n

/-- JS `value !== null && value !== undefined && value !== ''`. -/
def CellValue.isPresent : CellValue → Bool
  | .null => false
  | .undef => false
  | .str s => !(s == "")
  | .num _ => true

/-- JS `String.prototype.trim`. -/
def jsTrim (s : String) : String :=
  ⟨trimList s.data⟩

abbrev JsRecord := List (String × CellValue)

/-- google-forms.ts lines 409-422: the URL-encoded body for one record —
for each record entry whose column is mapped and whose value is present,
append `(field.entryId, String(value).trim())`. -/
def buildFormBody (fieldMapping : List (String × FormField)) (record : JsRecord) :
    List (String × String) :=
  record.filterMap (fun q =>
    match getKey fieldMapping q.1 with
    | some field => if q.2.isPresent then some (field.entryId, jsTrim q.2.toStr) else none
    | none => none)

/-- Outcome of the abstracted `fetch` on the form's `formResponse`
endpoint: a 302 redirect with optional Location header, a 200 with a
body, any other status, or a thrown error. -/
inductive FetchResult where
  | redirect (location : Option String)
  | okBody (body : String)
  | status (n : Nat)
  | threw (msg : String)
deriving DecidableEq

/-- Leftmost case-insensitive match of one of the patterns, returning the
matched characters of the original text (the regex
`/This is a required question|must be filled out|error/i` on line 467). -/
def findCiMatch (pats : List String) : List Char → Option (List Char)
  | [] =>
    match pats.find? (fun p => hasPrefixSeq [] (p.data.map lowerChar)) with
    | some _ => some []
    | none => none
  | c :: rest =>
    match pats.find? (fun p =>
        hasPrefixSeq ((c :: rest).map lowerChar) (p.data.map lowerChar)) with
    | some p => some ((c :: rest).take p.data.length)
    | none => findCiMatch pats rest

/-- google-forms.ts lines 466-468: extract a failure reason from a 200
body that did not confirm the submission. -/
def extractErrorMsg (body : String) : String :=
  match findCiMatch
      [("This is a required question"), ("must be filled out"), ("error")] body.data with
  | some cs => ⟨cs⟩
  | none => "Form validation failed"

/-- google-forms.ts lines 441-474: classify the response of one
submission attempt.  `none` is success; `some msg` is the failure reason
recorded for the row. -/
def classifyResponse : FetchResult → Option String
  | .redirect loc =>
    match loc with
    | some l =>
      if strIncludes l ("formResponse") then none
      else some ("Unexpected redirect to " ++ l)
    | none => some ("Unexpected redirect to null")
  | .okBody body =>
    if strIncludes body ("Your response has been recorded") ||
       strIncludes body ("formResponse") ||
       strIncludes body ("submitted") then none
    else some (extractErrorMsg body)
  | .status n => some ("Unexpected response status " ++ toString n)
  | .threw msg => some msg

/-- One record's outcome (google-forms.ts lines 407-478): a record whose
body has zero filled fields is not sent at all and fails with "No fields
were mapped"; otherwise the outcome is the classification of this row's
network response. -/
def recordResult (mapping : List (String × FormField)) (record : JsRecord)
    (resp : FetchResult) : Option String :=
  if (buildFormBody mapping record).length = 0 then some ("No fields were mapped")
  else classifyResponse resp

structure SubmitTotals where
  successCount : Nat
  failCount : Nat
  errors : List String
deriving DecidableEq

/-- The per-record loop of google-forms.ts lines 407-484: every record is
processed, each failure is recorded as `Row N: reason`, and the loop
never aborts early. -/
def processRecordsAux (mapping : List (String × FormField)) (resp : Nat → FetchResult) :
    Nat → List JsRecord → SubmitTotals → SubmitTotals
  | _, [], t => t
  | i, r :: rest, t =>
    match recordResult mapping r (resp i) with
    | none => processRecordsAux mapping resp (i + 1) rest
        { t with successCount := t.successCount + 1 }
    | some msg => processRecordsAux mapping resp (i + 1) rest
        { t with failCount := t.failCount + 1,
                 errors := t.errors ++ [("Row " ++ toString (i + 1) ++ ": " ++ msg)] }

def processRecords (mapping : List (String × FormField)) (records : List JsRecord)
    (resp : Nat → FetchResult) : SubmitTotals :=
  processRecordsAux mapping resp 0 records ⟨0, 0, []⟩

/-- google-forms.ts lines 402-503: run the loop, then (lines 495-499)
throw when every submission failed, or when any submission failed; the
outer catch on line 500 re-wraps the message. -/
def submitRecords (mapping : List (String × FormField)) (records : List JsRecord)
    (resp : Nat → FetchResult) : Except String SubmitTotals :=
  let t := processRecords mapping records resp
  if t.failCount = records.length then
    .error ("Failed to submit to form: All submissions failed. Please check form URL and ensure form is accessible.")
  else if 0 < t.failCount then
    .error ("Failed to submit to form: " ++ toString t.failCount ++ " of " ++
      toString records.length ++ " submissions failed. Check logs for details.")
  else .ok t

lemma processRecordsAux_spec (mapping : List (String × FormField))
    (resp : Nat → FetchResult) :
    ∀ (rs : List JsRecord) (i : Nat) (t : SubmitTotals),
      processRecordsAux mapping resp i rs t =
        ⟨t.successCount + ((rs.enumFrom i).filter
            (fun q => (recordResult mapping q.2 (resp q.1)).isNone)).length,
         t.failCount + ((rs.enumFrom i).filter
            (fun q => (recordResult mapping q.2 (resp q.1)).isSome)).length,
         t.errors ++ (rs.enumFrom i).filterMap
            (fun q => (recordResult mapping q.2 (resp q.1)).map
              (fun msg => "Row " ++ toString (q.1 + 1) ++ ": " ++ msg))⟩
  | [], i, t => by
    simp [processRecordsAux, List.enumFrom]
  | r :: rest, i, t => by
    rw [List.enumFrom]
    cases hr : recordResult mapping r (resp i) with
    | none =>
      simp only [processRecordsAux, hr]
      rw [processRecordsAux_spec mapping resp rest (i + 1) _, SubmitTotals.mk.injEq]
      refine ⟨?_, ?_, ?_⟩
      · simp [List.filter_cons, hr]
        omega
      · simp [List.filter_cons, hr]
      · simp [List.filterMap_cons, hr]
    | some msg =>
      simp only [processRecordsAux, hr]
      rw [processRecordsAux_spec mapping resp rest (i + 1) _, SubmitTotals.mk.injEq]
      refine ⟨?_, ?_, ?_⟩
      · simp [List.filter_cons, hr]
      · simp [List.filter_cons, hr]
        omega
      · simp [List.filterMap_cons, hr]

lemma processRecordsAux_total (mapping : List (String × FormField))
    (resp : Nat → FetchResult) :
    ∀ (rs : List JsRecord) (i : Nat) (t : SubmitTotals),
      (processRecordsAux mapping resp i rs t).successCount +
        (processRecordsAux mapping resp i rs t).failCount =
      t.successCount + t.failCount + rs.length
  | [], _, t => rfl
  | r :: rest, i, t => by
    rw [processRecordsAux]
    cases hr : recordResult mapping r (resp i) with
    | none =>
      rw [processRecordsAux_total mapping resp rest (i + 1)]
      simp only [List.length_cons]
      omega
    | some msg =>
      rw [processRecordsAux_total mapping resp rest (i + 1)]
      simp only [List.length_cons]
      omega

/-- C3 counterexample: a single record whose submission attempt throws is
caught and recorded as that record's failure, but `submitToForm` then
throws the aggregate error to its caller (lines 495-499), so record-level
outcomes do propagate as an exception. -/
theorem submitRecords_throws_on_failures :
    submitRecords [(("name"), ⟨"name", "text", "entry.5", false, "entry.5"⟩)]
      [[(("name"), CellValue.str ("Alice"))]] (fun _ => .threw ("network down"))
      = .error ("Failed to submit to form: All submissions failed. Please check form URL and ensure form is accessible.") :=
  rfl

/-- C3 (amended): per-record isolation holds — every record of the batch
is executed, each record's outcome depends only on that record and its
own network response (an exception on one record is caught, recorded,
and does not abort its siblings) — but the aggregated totals are
returned to the caller only when no record failed: if any record failed
(or the record set is empty), `submitToForm` throws an aggregate error. -/
theorem submitRecords_isolation (mapping : List (String × FormField))
    (records : List JsRecord) (resp : Nat → FetchResult) :
    (processRecords mapping records resp).successCount +
      (processRecords mapping records resp).failCount = records.length ∧
    processRecords mapping records resp =
      ⟨((records.enum).filter
          (fun q => (recordResult mapping q.2 (resp q.1)).isNone)).length,
        ((records.enum).filter
          (fun q => (recordResult mapping q.2 (resp q.1)).isSome)).length,
        (records.enum).filterMap
          (fun q => (recordResult mapping q.2 (resp q.1)).map
            (fun msg => "Row " ++ toString (q.1 + 1) ++ ": " ++ msg))⟩ ∧
    (submitRecords mapping records resp = .ok (processRecords mapping records resp) ↔
      (processRecords mapping records resp).failCount = 0 ∧ records.length ≠ 0) := by
  refine ⟨?_, ?_, ?_⟩
  · have := processRecordsAux_total mapping resp records 0 ⟨0, 0, []⟩
    simpa [processRecords] using this
  · have := processRecordsAux_spec mapping resp records 0 ⟨0, 0, []⟩
    simpa [processRecords, List.enum] using this
  · constructor
    · intro h
      by_cases h1 : (processRecords mapping records resp).failCount = records.length
      · rw [submitRecords] at h
        simp only [h1, if_pos rfl] at h
        exact absurd h (by simp)
      · by_cases h2 : 0 < (processRecords mapping records resp).failCount
        · rw [submitRecords] at h
          simp only [if_neg h1, if_pos h2] at h
          exact absurd h (by simp)
        · have hf : (processRecords mapping records resp).failCount = 0 := by omega
          refine ⟨hf, fun hlen => h1 ?_⟩
          rw [hf, hlen]
    · rintro ⟨hf, hlen⟩
      have h1 : ¬ (processRecords mapping records resp).failCount = records.length := by
        rw [hf]; exact fun e => hlen e.symm
      have h2 : ¬ 0 < (processRecords mapping records resp).failCount := by omega
      simp only [submitRecords]
      rw [if_neg h1, if_neg h2]

/-- C3 witness: with one record and a confirming redirect, the aggregate
totals are returned without an exception. -/
theorem submitRecords_isolation_witness :
    submitRecords [(("name"), ⟨"name", "text", "entry.5", false, "entry.5"⟩)]
      [[(("name"), CellValue.str ("Alice"))]]
      (fun _ => .redirect (some ("https://docs.google.com/forms/formResponse")))
      = .ok (processRecords [(("name"), ⟨"name", "text", "entry.5", false, "entry.5"⟩)]
          [[(("name"), CellValue.str ("Alice"))]]
          (fun _ => .redirect (some ("https://docs.google.com/forms/formResponse")))) :=
  (submitRecords_isolation _ _ _).2.2.mpr ⟨by decide, by decide⟩

/-- C8 counterexample: a record whose mapped values are all empty is
counted in `failCount` with error "No fields were mapped" — there is no
separate skipped counter — though no submission attempt is made (the
outcome is identical under a throwing oracle and under a succeeding one). -/
theorem skipped_record_counted_as_failed :
    processRecords
        [(("name"), ⟨"name", "text", "entry.1", false, "entry.1"⟩),
         (("phone"), ⟨"phone", "text", "entry.2", false, "entry.2"⟩)]
        [[(("name"), CellValue.str ("")), (("phone"), CellValue.null)]]
        (fun _ => .threw ("x"))
      = ⟨0, 1, [("Row 1: No fields were mapped")]⟩ ∧
    processRecords
        [(("name"), ⟨"name", "text", "entry.1", false, "entry.1"⟩),
         (("phone"), ⟨"phone", "text", "entry.2", false, "entry.2"⟩)]
        [[(("name"), CellValue.str ("")), (("phone"), CellValue.null)]]
        (fun _ => .redirect (some ("formResponse")))
      = ⟨0, 1, [("Row 1: No fields were mapped")]⟩ :=
  ⟨rfl, rfl⟩

/-- C8 (amended): a record for which the mapping fills zero non-empty
values is never submitted to the remote service — its outcome is the
same for every network oracle — and it increments the failed counter
(not a skipped counter, which the code does not have), with the error
"No fields were mapped". -/
theorem noFieldsFilled_not_attempted (mapping : List (String × FormField))
    (record : JsRecord) (h : buildFormBody mapping record = []) :
    ∀ resp : Nat → FetchResult,
      processRecords mapping [record] resp = ⟨0, 1, [("Row 1: No fields were mapped")]⟩ := by
  intro resp
  have hr : recordResult mapping record (resp 0) = some ("No fields were mapped") := by
    rw [recordResult, h]
    rfl
  simp only [processRecords, processRecordsAux, hr]
  rfl

/-- C8 witness: the amended theorem applied at a concrete record with all
mapped values empty, under a throwing oracle. -/
theorem noFieldsFilled_not_attempted_witness :
    processRecords [(("name"), ⟨"name", "text", "entry.1", false, "entry.1"⟩)]
        [[(("name"), CellValue.str (""))]] (fun _ => .threw ("x"))
      = ⟨0, 1, [("Row 1: No fields were mapped")]⟩ :=
  noFieldsFilled_not_attempted _ _ (by decide) _

/-- C9: the direct-strategy payload contains exactly the pairs
`(fieldId, trimmedValue)` for the record entries whose column is mapped
and whose value is neither absent nor the empty string, the value being
the verbatim trimmed string coercion; and numbers are stringified
verbatim, never reformatted. -/
theorem buildFormBody_spec :
    (∀ (mapping : List (String × FormField)) (record : JsRecord) (eid s : String),
      (eid, s) ∈ buildFormBody mapping record ↔
        ∃ c v f, (c, v) ∈ record ∧ getKey mapping c = some f ∧ f.entryId = eid ∧
          v.isPresent = true ∧ s = jsTrim v.toStr) ∧
    (∀ n : Int, (CellValue.num n).toStr = toString n) := by
  refine ⟨?_, fun n => rfl⟩
  intro mapping record eid s
  rw [buildFormBody, List.mem_filterMap]
  constructor
  · rintro ⟨⟨c, v⟩, hq, hg⟩
    simp only at hg
    cases hk : getKey mapping c with
    | none => rw [hk] at hg; cases hg
    | some f =>
      rw [hk] at hg
      cases hp : v.isPresent with
      | false => rw [hp] at hg; simp at hg
      | true =>
        rw [hp] at hg
        simp at hg
        exact ⟨c, v, f, hq, hk, hg.1, hp, hg.2.symm⟩
  · rintro ⟨c, v, f, hcv, hk, he, hp, hs⟩
    refine ⟨(c, v), hcv, ?_⟩
    simp [hk, hp, he, hs]

/-- C9 witness: a concrete present value appears in the payload keyed by
its field's entryId with its trimmed string form. -/
theorem buildFormBody_spec_witness :
    (("entry.5"), ("Alice")) ∈ buildFormBody
      [(("name"), ⟨"name", "text", "entry.5", false, "entry.5"⟩)]
      [(("name"), CellValue.str (" Alice "))] :=
  (buildFormBody_spec.1 _ _ _ _).mpr
    ⟨("name"), CellValue.str (" Alice "), ⟨"name", "text", "entry.5", false, "entry.5"⟩,
      by decide, by decide, rfl, rfl, by decide⟩

/-! ### Job storage and the batch orchestrator
(storage.ts `MemStorage`, routes.ts `processSubmissionBatches`, lines 206-256)

Timestamps (`Date` values) and the random UUIDs of `randomUUID()` are
abstracted: ids are supplied explicitly.  `writeToSheet`, the only
fallible call inside the per-batch `try`, is abstracted as the oracle
`writeResult : Nat → Option String` (`none` = the write for batch index
`i` succeeded, `some msg` = it threw with message `msg`). -/

structure Submission where
  id : String
  formUrl : String
  formTitle : Option String
  fileName : String
  totalRecords : Nat
  batchSize : Nat
  processedRecords : Nat
  status : String
  data : List JsRecord
  delayBetweenBatches : Option Nat
deriving DecidableEq

structure InsertBatch where
  submissionId : String
  batchNumber : Nat
  recordsCount : Nat
  status : String
deriving DecidableEq

structure BatchRec where
  id : String
  submissionId : String
  batchNumber : Nat
  recordsCount : Nat
  status : String
  errorMessage : Option String
deriving DecidableEq

/-- storage.ts lines 67-80: `{ ...insertBatch, id, status: 'pending',
errorMessage: null, ... }` — the spread is written before the literal
`status` field, so the caller-supplied status is overridden with
"pending". -/
def MemStorage.createBatch (ins : InsertBatch) (id : String) : BatchRec :=
  { id := id
    submissionId := ins.submissionId
    batchNumber := ins.batchNumber
    recordsCount := ins.recordsCount
    status := "pending"
    errorMessage := none }

/-- storage.ts lines 82-92: set the status; `errorMessage || null` maps
an absent or empty message to null. -/
def MemStorage.updateBatchStatus (b : BatchRec) (status : String)
    (errorMessage : Option String) : BatchRec :=
  { b with
    status := status
    errorMessage :=
      match errorMessage with
      | some s => if s = "" then none else some s
      | none => none }

/-- routes.ts line 213: `Math.ceil(data.length / batchSize)`. -/
def totalBatches (sub : Submission) : Nat :=
  (sub.data.length + sub.batchSize - 1) / sub.batchSize

structure OrchState where
  processedRecords : Nat
  batches : List BatchRec
deriving DecidableEq

/-- routes.ts lines 215-251, one loop iteration for batch index `i`:
slice the records, create the batch record (passing status "processing",
which MemStorage discards), attempt the write; on success mark the batch
completed and advance progress to `min((i+1)*batchSize, data.length)`;
on a thrown write mark the batch failed with the error message and leave
progress untouched, continuing with the next batch. -/
def orchStep (sub : Submission) (writeResult : Nat → Option String)
    (st : OrchState) (i : Nat) : OrchState :=
  let startIndex := i * sub.batchSize
  let endIndex := min (startIndex + sub.batchSize) sub.data.length
  let batchData := (sub.data.drop startIndex).take (endIndex - startIndex)
  let batch := MemStorage.createBatch
    ⟨sub.id, i + 1, batchData.length, ("processing")⟩ ("batch-" ++ toString (i + 1))
  match writeResult i with
  | none =>
    { processedRecords := min ((i + 1) * sub.batchSize) sub.data.length
      batches := st.batches ++ [MemStorage.updateBatchStatus batch ("completed") none] }
  | some msg =>
    { processedRecords := st.processedRecords
      batches := st.batches ++ [MemStorage.updateBatchStatus batch ("failed") (some msg)] }

/-- The orchestrator's state after the first `k` batch iterations. -/
def orchAfter (sub : Submission) (writeResult : Nat → Option String) (k : Nat) : OrchState :=
  (List.range k).foldl (orchStep sub writeResult) ⟨sub.processedRecords, []⟩

/-- routes.ts lines 206-256: run every batch, then mark the submission
completed (per-batch errors are caught inside the loop and never abort
the job). -/
def processSubmissionBatches (sub : Submission) (writeResult : Nat → Option String) :
    Submission × List BatchRec :=
  let st := orchAfter sub writeResult (totalBatches sub)
  ({ sub with processedRecords := st.processedRecords, status := "completed" }, st.batches)

/-- routes.ts lines 182-203 and 206-256 combined: the inner
`getSubmission` lookup is the only fallible step outside the per-batch
`try`; a lookup that throws is caught by the route's `.catch`, which sets
the job status to "failed"; a lookup returning no job leaves the status
set by the route ("processing"); otherwise the loop runs to completion. -/
def processTop (lookup : Except String (Option Submission))
    (writeResult : Nat → Option String) : String × List BatchRec :=
  match lookup with
  | .error _ => (("failed"), [])
  | .ok none => (("processing"), [])
  | .ok (some sub) =>
    ((processSubmissionBatches sub writeResult).1.status,
     (processSubmissionBatches sub writeResult).2)

lemma orchAfter_succ (sub : Submission) (writeResult : Nat → Option String) (k : Nat) :
    orchAfter sub writeResult (k + 1) =
      orchStep sub writeResult (orchAfter sub writeResult k) k := by
  rw [orchAfter, orchAfter, List.range_succ, List.foldl_append, List.foldl_cons, List.foldl_nil]

lemma orchAfter_le_min (sub : Submission) (writeResult : Nat → Option String)
    (h0 : sub.processedRecords = 0) :
    ∀ k, (orchAfter sub writeResult k).processedRecords ≤
      min (k * sub.batchSize) sub.data.length
  | 0 => by
    rw [orchAfter, List.range_zero, List.foldl_nil, h0]
    exact Nat.zero_le _
  | k + 1 => by
    rw [orchAfter_succ]
    cases hw : writeResult k with
    | none =>
      simp only [orchStep, hw]
      exact Nat.le_refl _
    | some msg =>
      simp only [orchStep, hw]
      have ih := orchAfter_le_min sub writeResult h0 k
      have h1 : (orchAfter sub writeResult k).processedRecords ≤ k * sub.batchSize :=
        le_trans ih (min_le_left _ _)
      have h2 : (orchAfter sub writeResult k).processedRecords ≤ sub.data.length :=
        le_trans ih (min_le_right _ _)
      exact le_min
        (le_trans h1 (Nat.mul_le_mul_right _ (Nat.le_succ k))) h2

/-- A three-record job with batch size 2 (two batches of sizes [2, 1]),
fresh from `createSubmission` (progress 0, status set to "processing" by
the route before the loop starts). -/
def subEx : Submission :=
  { id := "s1", formUrl := "https://docs.google.com/spreadsheets/d/abc", formTitle := none,
    fileName := "f.csv", totalRecords := 3, batchSize := 2, processedRecords := 0,
    status := "processing", data := [[], [], []], delayBetweenBatches := none }

/-- C5 counterexample: when batch 1's write throws, the job's
processedRecords after batch 1 stays at 0 instead of the claimed
min(1 * batchSize, totalRecords) = 2: progress is only advanced inside
the `try`, after a successful write. -/
theorem progress_not_advanced_on_failed_batch :
    (orchAfter subEx (fun i => if i = 0 then some ("boom") else none) 1).processedRecords
      ≠ min (1 * subEx.batchSize) subEx.data.length := by
  decide

/-- C5 (amended): after batch i concludes, processedRecords equals
min(i * batchSize, totalRecords) if batch i's write succeeded, and
retains its previous value if the batch failed; over the job's lifetime
it is monotonically non-decreasing and never exceeds totalRecords, and a
job whose batches all succeed ends with processedRecords = totalRecords. -/
theorem processedRecords_progress (sub : Submission) (writeResult : Nat → Option String)
    (h0 : sub.processedRecords = 0) (hbs : 1 ≤ sub.batchSize) :
    (∀ i, (orchAfter sub writeResult (i + 1)).processedRecords =
        if writeResult i = none then min ((i + 1) * sub.batchSize) sub.data.length
        else (orchAfter sub writeResult i).processedRecords) ∧
    (∀ k, (orchAfter sub writeResult k).processedRecords ≤
        (orchAfter sub writeResult (k + 1)).processedRecords) ∧
    (∀ k, (orchAfter sub writeResult k).processedRecords ≤ sub.data.length) ∧
    ((∀ j, writeResult j = none) →
        (processSubmissionBatches sub writeResult).1.processedRecords = sub.data.length) := by
  have hkey : sub.data.length ≤ totalBatches sub * sub.batchSize := by
    by_contra hlt
    push_neg at hlt
    have hpos : 0 < sub.batchSize := hbs
    have hlen1 : 1 ≤ sub.data.length := Nat.lt_of_le_of_lt (Nat.zero_le _) hlt
    have h2 : totalBatches sub + 1 ≤ (sub.data.length + sub.batchSize - 1) / sub.batchSize := by
      rw [Nat.le_div_iff_mul_le hpos, Nat.add_mul, Nat.one_mul]
      have h3 : totalBatches sub * sub.batchSize ≤ sub.data.length - 1 :=
        Nat.le_pred_of_lt hlt
      calc totalBatches sub * sub.batchSize + sub.batchSize
          ≤ sub.data.length - 1 + sub.batchSize := Nat.add_le_add_right h3 _
        _ = sub.data.length + sub.batchSize - 1 := (Nat.sub_add_comm hlen1).symm
    rw [show (sub.data.length + sub.batchSize - 1) / sub.batchSize = totalBatches sub
      from rfl] at h2
    omega
  refine ⟨?_, ?_, ?_, ?_⟩
  · intro i
    rw [orchAfter_succ]
    cases hw : writeResult i with
    | none => simp [orchStep, hw]
    | some msg => simp [orchStep, hw]
  · intro k
    rw [orchAfter_succ]
    cases hw : writeResult k with
    | none =>
      simp only [orchStep, hw]
      have ih := orchAfter_le_min sub writeResult h0 k
      exact le_min
        (le_trans (le_trans ih (min_le_left _ _)) (Nat.mul_le_mul_right _ (Nat.le_succ k)))
        (le_trans ih (min_le_right _ _))
    | some msg =>
      simp only [orchStep, hw]
      exact Nat.le_refl _
  · intro k
    exact le_trans (orchAfter_le_min sub writeResult h0 k) (min_le_right _ _)
  · intro hall
    show (orchAfter sub writeResult (totalBatches sub)).processedRecords = sub.data.length
    cases hT : totalBatches sub with
    | zero =>
      have hlen : sub.data.length = 0 := by
        rw [totalBatches] at hT
        rw [Nat.div_eq_zero_iff hbs] at hT
        omega
      rw [orchAfter, List.range_zero, List.foldl_nil, h0, hlen]
    | succ k =>
      rw [orchAfter_succ]
      simp only [orchStep, hall k]
      apply min_eq_right
      rw [← hT]
      exact hkey

/-- C5 witness: with every batch write succeeding, the three-record
job with batchSize 2 ends with processedRecords = 3 = totalRecords. -/
theorem processedRecords_progress_witness :
    (processSubmissionBatches subEx (fun _ => none)).1.processedRecords
      = subEx.data.length :=
  (processedRecords_progress subEx (fun _ => none) rfl (by decide)).2.2.2 (fun _ => rfl)

/-- C6: once the job lookup has returned the job and batch execution
begins, the job's final status is "completed" regardless of how many
batch writes failed; the status "failed" is reached only when the lookup
itself throws before any batch starts. -/
theorem job_always_completes :
    (∀ (lookup : Except String (Option Submission)) (writeResult : Nat → Option String)
        (sub : Submission),
      lookup = .ok (some sub) → (processTop lookup writeResult).1 = "completed") ∧
    (∀ (lookup : Except String (Option Submission)) (writeResult : Nat → Option String),
      (processTop lookup writeResult).1 = "failed" → ∃ e, lookup = .error e) := by
  constructor
  · intro lookup writeResult sub h
    rw [h]
    rfl
  · intro lookup writeResult h
    cases lookup with
    | error e => exact ⟨e, rfl⟩
    | ok o =>
      cases o with
      | none =>
        have h2 : ("processing" : String) = "failed" := h
        exact absurd h2 (by decide)
      | some sub =>
        have h2 : ("completed" : String) = "failed" := h
        exact absurd h2 (by decide)

/-- C6 witness: a job whose every batch write throws still completes. -/
theorem job_always_completes_witness :
    (processTop (.ok (some subEx)) (fun _ => some ("boom"))).1 = "completed" :=
  job_always_completes.1 _ _ subEx rfl

/-- C7: routes.ts line 228 passes status "processing" when creating a
batch, but `MemStorage.createBatch` (storage.ts lines 70-77) spreads
`insertBatch` before its own `status: 'pending'` field, so the stored
batch is created with status "pending"; it then jumps straight to
"completed"/"failed" without ever holding the status "processing". -/
theorem createBatch_discards_processing_status :
    (MemStorage.createBatch ⟨("job-1"), 1, 100, ("processing")⟩ ("batch-1")).status
      = "pending" :=
  rfl

end Monopolyu
